import Mathlib

/-!
Shallow embedding of the `State` data structure of
`quantum_circuit/state.py`: the amplitudes of the computational-basis states
together with the algebraic, probability, measurement and formatting
operations the file defines.  Amplitudes are modelled as complex numbers with
rational components, so every definition is computable; Python exceptions are
modelled with `Except Err`.
-/

/-- Complex number with rational real and imaginary components, the
exact-arithmetic model of the `np.complex128` amplitudes. -/
structure QC where
  re : ℚ
  im : ℚ
deriving DecidableEq

namespace QC

instance instOfNatQC (n : ℕ) : OfNat QC n := ⟨⟨(n : ℚ), (0 : ℚ)⟩⟩

instance : Zero QC := ⟨⟨0, 0⟩⟩

instance : Add QC := ⟨fun a b => ⟨a.re + b.re, a.im + b.im⟩⟩

instance : Sub QC := ⟨fun a b => ⟨a.re - b.re, a.im - b.im⟩⟩

instance : Neg QC := ⟨fun a => ⟨-a.re, -a.im⟩⟩

instance : Mul QC := ⟨fun a b =>
  ⟨a.re * b.re - a.im * b.im, a.re * b.im + a.im * b.re⟩⟩

/-- Complex conjugate, `np.conj`. -/
def conj (z : QC) : QC := ⟨z.re, -z.im⟩

/-- Squared magnitude: the exact value of `np.square(abs(z))`. -/
def normSq (z : QC) : ℚ := z.re * z.re + z.im * z.im

/-- Complex division.  With a zero divisor the rational divisions below give 0
(numpy float division raises no exception there either; nothing in this
development relies on the value of the quotient at a zero divisor, only on the
absence of a failure). -/
instance : Div QC := ⟨fun a b =>
  ⟨(a.re * b.re + a.im * b.im) / normSq b,
   (a.im * b.re - a.re * b.im) / normSq b⟩⟩

end QC

/-- Failure kinds raised by the Python code (assertion failures and numpy
errors), under the names used by the error taxonomy of the specification where one
matches. -/
inductive Err where
  /-- The `__init__` assertion: amplitude count is not a power of two
  (a length of 0 also fails in the source, inside `int(np.log2(0))`). -/
  | invalidStateSize
  /-- The `from_basis_state` assertion: `basis_state >= 1 << qubit_count`. -/
  | invalidBasisState
  /-- A numpy integer index outside `[-size, size)`. -/
  | indexError
  /-- Arithmetic reached a bare number where a `State` was needed
  (`AttributeError: ... has no attribute amplitudes` in the source). -/
  | unsupportedOperand
  /-- numpy `ValueError`: operands could not be broadcast together. -/
  | broadcastMismatch
deriving DecidableEq

/-- Fuelled floor base-2 logarithm; with `fuel ≥ n` it computes
`int(np.log2(n))` for every `n ≥ 1`. -/
def log2floorAux : ℕ → ℕ → ℕ
  | 0, _ => 0
  | fuel + 1, n => if n < 2 then 0 else log2floorAux fuel (n / 2) + 1

/-- The exact value of `int(np.log2(n))` for `n ≥ 1`: the floor base-2
logarithm. -/
def log2floor (n : ℕ) : ℕ := log2floorAux n n

/-- Python `State`: the amplitudes of the computational-basis states.  The
constructor assertion (`assert 1 << self.qubit_count == self.basis_size`,
where `qubit_count = int(np.log2(basis_size))`) is carried as an invariant:
every `State` the Python code ever builds has passed it. -/
structure State where
  amplitudes : List QC
  pow2 : 2 ^ log2floor amplitudes.length = amplitudes.length

namespace State

/-- Python `self.basis_size`: the number of amplitudes. -/
def basis_size (s : State) : ℕ := s.amplitudes.length

/-- Python `self.qubit_count = int(np.log2(self.basis_size))`. -/
def qubit_count (s : State) : ℕ := log2floor s.amplitudes.length

/-- Python `State(initial_state)`: store the amplitudes and assert that their
number is a power of two.  (For the empty sequence the source fails inside
`int(np.log2(0))` instead of at the assertion; both are hard construction
failures, modelled by the same error.) -/
def init (initial_state : List QC) : Except Err State :=
  if h : 2 ^ log2floor initial_state.length = initial_state.length then
    .ok ⟨initial_state, h⟩
  else
    .error .invalidStateSize

/-- Python `__getitem__` with numpy integer-index semantics: a negative index
`i` with `-basis_size ≤ i` addresses `basis_size + i`; any index outside
`[-basis_size, basis_size)` is an `IndexError`. -/
def getitem (s : State) (i : ℤ) : Option QC :=
  if 0 ≤ i then s.amplitudes[i.toNat]?
  else if -(s.basis_size : ℤ) ≤ i then s.amplitudes[(i + s.basis_size).toNat]?
  else none

/-- The `State`-times-`State` branch of `__mul__`: the inner product
`np.conj(self.amplitudes).dot(other.amplitudes)`. -/
def mul_state_state (s t : State) : QC :=
  (List.zipWith (fun a b => QC.conj a * b) s.amplitudes t.amplitudes).sum

/-- The `State`-times-number branch of `__mul__`:
`State(other * self.amplitudes)`. -/
def mul_scalar (s : State) (other : QC) : Except Err State :=
  init (s.amplitudes.map (fun a => other * a))

/-- Python `__rmul__`: `return self * number`. -/
def rmul (number : QC) (s : State) : Except Err State :=
  mul_scalar s number

/-- Python `prob_of_bs`: `np.square(abs(self[basis_state]))`, divided by
`(self * self).real` when `normalize` is set (`QC.normSq` is the exact value
of `np.square(abs(z))`). -/
def prob_of_bs (s : State) (basis_state : ℤ) (normalize : Bool) : Option ℚ :=
  (s.getitem basis_state).map (fun a =>
    if normalize then QC.normSq a / (mul_state_state s s).re
    else QC.normSq a)

/-- Python `from_basis_state`: build a zero vector of length
`1 << qubit_count`, assert `basis_state < 1 << qubit_count` (the only
range check in the source), then execute `state[basis_state] = 1.0` with numpy
integer-index semantics: a negative label in `[-2^qubit_count, 0)` wraps to
`2^qubit_count + basis_state`, and a label below `-2^qubit_count` is an
`IndexError`. -/
def from_basis_state (qubit_count : ℕ) (basis_state : ℤ) : Except Err State :=
  let size : ℕ := 2 ^ qubit_count
  let zero_vec : List QC := List.replicate size 0
  if basis_state < (size : ℤ) then
    if 0 ≤ basis_state then
      init (zero_vec.set basis_state.toNat 1)
    else if -(size : ℤ) ≤ basis_state then
      init (zero_vec.set (basis_state + size).toNat 1)
    else
      .error .indexError
  else
    .error .invalidBasisState

/-- The right-hand operand of `__eq__`: another `State` or a bare amplitude
sequence. -/
inductive EqRhs where
  | state (t : State)
  | raw (l : List QC)

/-- Python `__eq__`: a qubit-count check only when both operands are `State`s,
then an element-wise walk over `zip(self, state)` — which stops at the end of
the shorter operand. -/
def eq (s : State) (rhs : EqRhs) : Bool :=
  match rhs with
  | .state t =>
    if s.qubit_count ≠ t.qubit_count then false
    else (s.amplitudes.zip t.amplitudes).all (fun p => p.1 == p.2)
  | .raw l => (s.amplitudes.zip l).all (fun p => p.1 == p.2)

/-- Element-wise combination of two numpy arrays: equal lengths combine
index-wise, a length-1 operand broadcasts over the other, and any other
length mismatch raises `ValueError: operands could not be broadcast
together`. -/
def npBinOp (f : QC → QC → QC) (a b : List QC) : Except Err (List QC) :=
  if a.length = b.length then .ok (List.zipWith f a b)
  else if a.length = 1 then .ok (b.map (fun x => f (a.getD 0 0) x))
  else if b.length = 1 then .ok (a.map (fun x => f x (b.getD 0 0)))
  else .error .broadcastMismatch

/-- Python `__add__`: `State(self.amplitudes + state.amplitudes)`. -/
def add (s t : State) : Except Err State :=
  match npBinOp (fun a b => a + b) s.amplitudes t.amplitudes with
  | .ok l => init l
  | .error e => .error e

/-- Python `__sub__`: `State(self.amplitudes - state.amplitudes)`. -/
def sub (s t : State) : Except Err State :=
  match npBinOp (fun a b => a - b) s.amplitudes t.amplitudes with
  | .ok l => init l
  | .error e => .error e

/-- Python `__radd__`: adding the number 0 returns `State(self.amplitudes)`
(a copy); any other bare number falls through to `self + other`, where
`other.amplitudes` raises (`AttributeError`, named `UnsupportedOperand`
by the specification). -/
def radd (s : State) (other : QC) : Except Err State :=
  if other = 0 then init s.amplitudes
  else .error .unsupportedOperand

/-- Python `__truediv__`: `State(self.amplitudes / number)` — numpy float
division, which raises no exception even for a zero divisor. -/
def truediv (s : State) (number : QC) : Except Err State :=
  init (s.amplitudes.map (fun a => a / number))

/-- The `while acc < sample` loop of `random_measure_bs`.  `fuel` only bounds
the recursion; starting from `fuel = basis_size` the bound is never the
reason a walk stops, because the walk either crosses the threshold or indexes
past the final amplitude (`IndexError`, modelled as `none`). -/
def measureLoop (s : State) (sample : ℚ) : ℕ → ℕ → ℚ → Option ℕ
  | 0, basis_state, acc =>
    if acc < sample then none else some basis_state
  | fuel + 1, basis_state, acc =>
    if acc < sample then
      match s.prob_of_bs ((basis_state + 1 : ℕ) : ℤ) true with
      | none => none
      | some p => measureLoop s sample fuel (basis_state + 1) (acc + p)
    else some basis_state

/-- Python `random_measure_bs`, with the single uniform draw made an explicit
argument `sample`: start at basis state 0 with `acc = self.prob_of_bs(0)`
(the `normalize=True` default) and walk while `acc < sample`. -/
def random_measure_bs (s : State) (sample : ℚ) : Option ℕ :=
  match s.prob_of_bs 0 true with
  | none => none
  | some p0 => measureLoop s sample s.basis_size 0 p0

end State

/-- The normalized probability mass the measurement walk accumulates for one
basis-state label. -/
def probTerm (s : State) (i : ℕ) : ℚ :=
  QC.normSq (s.amplitudes.getD i 0) / (State.mul_state_state s s).re

/-- Running sum of the normalized basis-state probabilities over the labels
`0, …, n-1`. -/
def cumProb (s : State) (n : ℕ) : ℚ :=
  Finset.sum (Finset.range n) (fun i => probTerm s i)

/-! String constants for the formatter (`__str__`). -/

/-- Literal rendered for a zero-norm state. -/
def zeroKet : String := "0 |0>"

/-- A single space, the join separator of `__str__`. -/
def spaceStr : String := " "

/-- Plus sign. -/
def plusStr : String := "+"

/-- Minus sign. -/
def minusStr : String := "-"

/-- Empty string. -/
def emptyStr : String := ""

/-- Decimal point. -/
def dotStr : String := "."

/-- Two padding zeros. -/
def pad00 : String := "00"

/-- One padding zero. -/
def pad0 : String := "0"

/-- Separator `" j "` of the both-negative rendering. -/
def jSep : String := " j "

/-- Separator `" + j "` of the combined rendering. -/
def plusJSep : String := " + j "

/-- Opening parenthesis. -/
def lparen : String := "("

/-- Closing parenthesis. -/
def rparen : String := ")"

/-- Opening of a ket label. -/
def ketL : String := "|"

/-- Closing of a ket label. -/
def ketR : String := ">"

/-- Python percent-formatting `%.3f` of `q`: fixed-point rendering with three decimals.  (Ties at
the fourth decimal, where the float formatter rounds half to even, and
negative values that round to zero do not arise in the claims below.) -/
def fmt3 (q : ℚ) : String :=
  let n : ℤ := round (q * 1000)
  let sgn := if n < 0 then minusStr else emptyStr
  let m := n.natAbs
  let frac := m % 1000
  let pad := if frac < 10 then pad00 else if frac < 100 then pad0 else emptyStr
  sgn ++ toString (m / 1000) ++ dotStr ++ pad ++ toString frac

/-- The `sign` helper of `__str__`: plus if `num > 0`, minus otherwise. -/
def signStr (num : ℚ) : String := if num > 0 then plusStr else minusStr

/-- One term `rep = [sign, number, ket]` of `__str__`.  In the source the
`if imag == 0: ... elif real == 0: ...` assignment to `rep` is followed by a
textually separate `if imag < 0 and real < 0: ... else: ...` statement that
reassigns `rep` unconditionally, so only this second statement determines the
result. -/
def termRep (amp : QC) (label : ℕ) : List String :=
  let imag := amp.im
  let real := amp.re
  let rep : List String :=
    if imag < 0 ∧ real < 0 then
      [minusStr,
       fmt3 (-real) ++ spaceStr ++ signStr (-imag) ++ jSep ++ fmt3 (-imag)]
    else
      [plusStr, lparen ++ fmt3 real ++ plusJSep ++ fmt3 imag ++ rparen]
  rep ++ [ketL ++ toString label ++ ketR]

/-- The term-emission loop of `__str__`: iterate the amplitudes in ascending
label order, skip exact zeros, and for the first emitted term drop a leading
`+` (a leading `-` is fused onto the number). -/
def strTerms : List QC → ℕ → List String → List String
  | [], _, parts => parts
  | amp :: rest, label, parts =>
    if amp = 0 then strTerms rest (label + 1) parts
    else
      let rep := termRep amp label
      let next :=
        if parts.length = 0 then
          match rep with
          | s0 :: s1 :: tail =>
            if s0 = minusStr then parts ++ (minusStr ++ s1) :: tail
            else parts ++ s1 :: tail
          | _ => parts ++ rep
        else parts ++ rep
      strTerms rest (label + 1) next

/-- Python `__str__`: the zero-norm guard (`self.norm() == 0` in the source;
`norm` is the square root of the nonnegative radicand `(self * self).real`,
and the square root vanishes exactly when the radicand does), then the term
loop joined by single spaces. -/
def strState (s : State) : String :=
  if (State.mul_state_state s s).re = 0 then zeroKet
  else spaceStr.intercalate (strTerms s.amplitudes 0 [])

/-- The state `State([1, 0, 1, 0])` of concrete scenarios 1 and 6 of the spec. -/
def state1010 : State := ⟨[1, 0, 1, 0], by decide⟩

/-- The state `State([1, 1, 0, 0])` of concrete scenario 5 of the spec. -/
def state1100 : State := ⟨[1, 1, 0, 0], by decide⟩

/-- The state `State([1, 2, 3, 4])`, a 2-qubit operand for the broadcast
claims. -/
def state1234 : State := ⟨[1, 2, 3, 4], by decide⟩

/-- The single-amplitude state `State([5])`. -/
def state5 : State := ⟨[5], by decide⟩

/-- The 1-qubit state `State([5, 6])`. -/
def state56 : State := ⟨[5, 6], by decide⟩

/-! Component lemmas for `QC` and basic facts about the embedding. -/

@[simp] theorem QC.zero_re : (0 : QC).re = 0 := rfl

@[simp] theorem QC.zero_im : (0 : QC).im = 0 := rfl

@[simp] theorem QC.add_re (a b : QC) : (a + b).re = a.re + b.re := rfl

@[simp] theorem QC.add_im (a b : QC) : (a + b).im = a.im + b.im := rfl

@[simp] theorem QC.mul_re (a b : QC) :
    (a * b).re = a.re * b.re - a.im * b.im := rfl

@[simp] theorem QC.mul_im (a b : QC) :
    (a * b).im = a.re * b.im + a.im * b.re := rfl

@[simp] theorem QC.conj_re (a : QC) : (QC.conj a).re = a.re := rfl

@[simp] theorem QC.conj_im (a : QC) : (QC.conj a).im = -a.im := rfl

theorem QC.normSq_nonneg (z : QC) : 0 ≤ QC.normSq z :=
  add_nonneg (mul_self_nonneg z.re) (mul_self_nonneg z.im)

theorem log2floorAux_two_pow :
    ∀ fuel n, 2 ^ n ≤ fuel → log2floorAux fuel (2 ^ n) = n := by
  intro fuel
  induction fuel with
  | zero =>
    intro n hn
    have h1 : 1 ≤ 2 ^ n := Nat.one_le_two_pow
    omega
  | succ fuel ih =>
    intro n hn
    cases n with
    | zero => simp [log2floorAux]
    | succ m =>
      have h1 : 1 ≤ 2 ^ m := Nat.one_le_two_pow
      have hs : 2 ^ (m + 1) = 2 ^ m * 2 := pow_succ 2 m
      have h2 : ¬ 2 ^ (m + 1) < 2 := by omega
      have hdiv : 2 ^ (m + 1) / 2 = 2 ^ m := by omega
      have hm : 2 ^ m ≤ fuel := by omega
      unfold log2floorAux
      rw [if_neg h2, hdiv, ih m hm]

theorem log2floor_two_pow (n : ℕ) : log2floor (2 ^ n) = n :=
  log2floorAux_two_pow (2 ^ n) n le_rfl

theorem init_eq_ok (l : List QC) (h : 2 ^ log2floor l.length = l.length) :
    State.init l = Except.ok ⟨l, h⟩ := by
  unfold State.init
  rw [dif_pos h]

theorem init_eq_ok_of_length (l : List QC) (m : ℕ)
    (hm : 2 ^ log2floor m = m) (hlen : l.length = m) :
    ∃ a : State, State.init l = Except.ok a ∧ a.amplitudes = l := by
  have h : 2 ^ log2floor l.length = l.length := by rw [hlen]; exact hm
  exact ⟨⟨l, h⟩, init_eq_ok l h, rfl⟩

theorem basis_size_pos (s : State) : 0 < s.basis_size := by
  have h := s.pow2
  have h2 : 0 < 2 ^ log2floor s.amplitudes.length := by positivity
  unfold State.basis_size
  omega

/-- Elements of `zip l (take n l)` are always pairwise equal. -/
theorem zip_take_all_eq (a : List QC) :
    ∀ n, ((a.zip (a.take n)).all fun p => p.1 == p.2) = true := by
  induction a with
  | nil => intro n; simp
  | cons x t ih =>
    intro n
    cases n with
    | zero => simp
    | succ m => simpa using ih m

/-- C1: evaluating the formatter of the source at the failing input
`State([1, 0, 1, 0])` shows that purely real amplitudes are rendered in the
combined real-plus-imaginary form.  The class docstring promises
`1.000 |0> + 1.000 |2>` for this very state, but in the formatter the second
`if imag < 0 and real < 0 / else` statement is not chained to the
`if imag == 0` branch above it and overwrites the purely-real rendering
unconditionally. -/
theorem claim1_formatter_output :
    strState state1010 = "(1.000 + j 0.000) |0> + (1.000 + j 0.000) |2>" := by
  with_unfolding_all rfl

/-- C3 counterexample: dividing a `State` by the scalar zero does not fail —
`__truediv__` performs no zero check and numpy float division raises no
exception — so a `State` is returned, contradicting the claim that the
operation fails with `DivisionByZero`. -/
theorem claim3_counterexample :
    ∃ t, State.truediv state1010 0 = Except.ok t :=
  ⟨_, rfl⟩

/-- C3 (amended): scalar division never fails; for every `State` and every
divisor, including zero, `__truediv__` returns a new `State` of the same
`basis_size` (in IEEE arithmetic the amplitudes of a zero-divisor quotient
are non-finite values, but no error is raised). -/
theorem claim3_truediv_total (s : State) (c : QC) :
    ∃ t, State.truediv s c = Except.ok t ∧ t.basis_size = s.basis_size := by
  obtain ⟨t, ht, hamp⟩ := init_eq_ok_of_length
    (s.amplitudes.map (fun a => a / c)) s.amplitudes.length s.pow2
    (List.length_map _ _)
  refine ⟨t, ht, ?_⟩
  unfold State.basis_size
  rw [hamp]
  exact List.length_map _ _

/-- C5: adding the bare number 0 to a `State` (`0 + s`, the `__radd__` path)
returns a new `State` with the same amplitudes, while adding any nonzero bare
number fails (`AttributeError` in the source, named `UnsupportedOperand`
by the specification). -/
theorem claim5_radd (s : State) (c : QC) :
    (∃ t, State.radd s 0 = Except.ok t ∧ t.amplitudes = s.amplitudes) ∧
    (c ≠ 0 → State.radd s c = Except.error Err.unsupportedOperand) := by
  constructor
  · refine ⟨⟨s.amplitudes, s.pow2⟩, ?_, rfl⟩
    unfold State.radd
    rw [if_pos rfl]
    exact init_eq_ok s.amplitudes s.pow2
  · intro hc
    unfold State.radd
    rw [if_neg hc]

/-- C5 witness: instantiation at `State([1, 0, 1, 0])` and the nonzero bare
number 1. -/
theorem claim5_witness :
    (∃ t, State.radd state1010 0 = Except.ok t ∧
      t.amplitudes = state1010.amplitudes) ∧
    State.radd state1010 1 = Except.error Err.unsupportedOperand :=
  ⟨(claim5_radd state1010 1).1,
   (claim5_radd state1010 1).2 (by with_unfolding_all decide)⟩

/-- C8: construction succeeds exactly when the amplitude count is a power of
two (so a length of 3 fails with `InvalidStateSize`), and on a sequence of
length `2^n` it succeeds with `qubit_count = n`. -/
theorem claim8_power_of_two (l : List QC) (n : ℕ) :
    ((∃ s, State.init l = Except.ok s) ↔ ∃ m, l.length = 2 ^ m) ∧
    (l.length = 2 ^ n → ∃ s, State.init l = Except.ok s ∧ s.qubit_count = n) ∧
    State.init [1, 1, 1] = Except.error Err.invalidStateSize := by
  refine ⟨⟨?_, ?_⟩, ?_, ?_⟩
  · rintro ⟨s, hs⟩
    by_cases h : 2 ^ log2floor l.length = l.length
    · exact ⟨log2floor l.length, h.symm⟩
    · unfold State.init at hs
      rw [dif_neg h] at hs
      exact absurd hs (by simp)
  · rintro ⟨m, hm⟩
    have h : 2 ^ log2floor l.length = l.length := by
      rw [hm, log2floor_two_pow]
    exact ⟨⟨l, h⟩, init_eq_ok l h⟩
  · intro hm
    have h : 2 ^ log2floor l.length = l.length := by
      rw [hm, log2floor_two_pow]
    refine ⟨⟨l, h⟩, init_eq_ok l h, ?_⟩
    show log2floor l.length = n
    rw [hm, log2floor_two_pow]
  · rfl

/-- C8 witness: instantiation at the four-amplitude sequence `[1, 0, 0, 0]`,
which constructs a `State` with `qubit_count = 2`. -/
theorem claim8_witness :
    ∃ s, State.init [1, 0, 0, 0] = Except.ok s ∧ s.qubit_count = 2 :=
  (claim8_power_of_two [1, 0, 0, 0] 2).2.1 (by decide)

/-- C9: multiplying a scalar by a `State` (`__rmul__`) and a `State` by a
scalar (`__mul__`) return the same new `State`, whose amplitudes are the
element-wise product of the scalar with the original amplitudes. -/
theorem claim9_scalar_commutes (s : State) (c : QC) :
    ∃ t, State.mul_scalar s c = Except.ok t ∧ State.rmul c s = Except.ok t ∧
      t.amplitudes = s.amplitudes.map (fun a => c * a) := by
  have hlen : (s.amplitudes.map (fun a => c * a)).length = s.amplitudes.length :=
    List.length_map _ _
  have h : 2 ^ log2floor (s.amplitudes.map (fun a => c * a)).length
      = (s.amplitudes.map (fun a => c * a)).length := by
    rw [hlen]
    exact s.pow2
  exact ⟨⟨_, h⟩, init_eq_ok _ h, init_eq_ok _ h, rfl⟩

/-- C10: equality of a `State` against a bare amplitude sequence does not
check lengths — any strict prefix of the amplitudes (including the empty
sequence) compares equal, because `zip` stops at the shorter operand. -/
theorem claim10_eq_ignores_length (s : State) (l : List QC)
    (hlen : l.length < s.basis_size) (hpre : l = s.amplitudes.take l.length) :
    State.eq s (State.EqRhs.raw l) = true := by
  show ((s.amplitudes.zip l).all fun p => p.1 == p.2) = true
  rw [hpre]
  exact zip_take_all_eq s.amplitudes l.length

/-- C10 witness: `State([1, 0, 1, 0])` compares equal to the two-element
prefix `[1, 0]`. -/
theorem claim10_witness :
    State.eq state1010 (State.EqRhs.raw [1, 0]) = true :=
  claim10_eq_ignores_length state1010 [1, 0] (by decide)
    (by with_unfolding_all decide)

/-- C2 counterexample: the claim says every negative label fails with
`InvalidBasisState`, but `from_basis_state(2, -1)` succeeds — the assertion
only checks `basis_state < 1 << qubit_count`, and numpy indexing wraps the
negative label to index 3. -/
theorem claim2_counterexample :
    ∃ s : State, State.from_basis_state 2 (-1) = Except.ok s ∧
      s.amplitudes = [0, 0, 0, 1] :=
  ⟨_, rfl, by with_unfolding_all decide⟩

/-- C2 (amended): `from_basis_state(n, b)` fails with `InvalidBasisState`
whenever `b ≥ 2^n`, and for `0 ≤ b < 2^n` returns a `State` of `basis_size`
`2^n` whose amplitude is 1 at index `b` and 0 elsewhere.  (Negative labels
are not rejected: they wrap via numpy indexing.) -/
theorem claim2_from_basis_state (n : ℕ) (b : ℤ) :
    (((2 ^ n : ℕ) : ℤ) ≤ b →
      State.from_basis_state n b = Except.error Err.invalidBasisState) ∧
    (0 ≤ b → b < ((2 ^ n : ℕ) : ℤ) →
      ∃ s, State.from_basis_state n b = Except.ok s ∧ s.basis_size = 2 ^ n ∧
        ∀ i : ℕ, i < 2 ^ n →
          s.amplitudes.getD i 0 = if (i : ℤ) = b then 1 else 0) := by
  constructor
  · intro hb
    simp only [State.from_basis_state]
    rw [if_neg (not_lt.mpr hb)]
  · intro hb0 hblt
    simp only [State.from_basis_state]
    rw [if_pos hblt, if_pos hb0]
    have hlen : ((List.replicate (2 ^ n) (0 : QC)).set b.toNat 1).length
        = 2 ^ n := by
      rw [List.length_set, List.length_replicate]
    obtain ⟨s, hs, hamp⟩ := init_eq_ok_of_length
      ((List.replicate (2 ^ n) (0 : QC)).set b.toNat 1) (2 ^ n)
      (by rw [log2floor_two_pow]) hlen
    refine ⟨s, hs, ?_, ?_⟩
    · unfold State.basis_size
      rw [hamp, hlen]
    · intro i hi
      rw [hamp]
      rw [List.getD_eq_getElem?_getD, List.getElem?_set, List.getElem?_replicate,
        List.length_replicate]
      by_cases hib : (i : ℤ) = b
      · have he : b.toNat = i := by omega
        rw [if_pos he, if_pos (by omega), if_pos hib]
        rfl
      · have he : ¬ b.toNat = i := by omega
        rw [if_neg he, if_pos hi, if_neg hib]
        rfl

/-- C2 witness: `from_basis_state(2, 5)` fails with `InvalidBasisState`, and
`from_basis_state(2, 1)` builds the one-hot state at index 1 with
`basis_size = 4`. -/
theorem claim2_witness :
    State.from_basis_state 2 5 = Except.error Err.invalidBasisState ∧
    (∃ s, State.from_basis_state 2 1 = Except.ok s ∧ s.basis_size = 2 ^ 2 ∧
      ∀ i : ℕ, i < 2 ^ 2 →
        s.amplitudes.getD i 0 = if (i : ℤ) = 1 then 1 else 0) :=
  ⟨(claim2_from_basis_state 2 5).1 (by decide),
   (claim2_from_basis_state 2 1).2 (by decide) (by decide)⟩

/-- C4 counterexample: the claim says `add` fails for operands of different
`basis_size`, including `basis_size` 1, but adding the one-amplitude state
`State([5])` to `State([1, 2, 3, 4])` succeeds via numpy broadcasting. -/
theorem claim4_counterexample :
    ∃ t, State.add state1234 state5 = Except.ok t ∧
      t.amplitudes = [6, 7, 8, 9] :=
  ⟨_, rfl, by with_unfolding_all decide⟩

/-- C4 (amended): `add` and `sub` on `State`s of different `basis_size` fail
with a broadcast error, except when one operand has `basis_size` 1, in which
case numpy broadcasts the singleton amplitude across the other operand and
the operation succeeds. -/
theorem claim4_add_sub_broadcast (s t : State) :
    (s.basis_size ≠ t.basis_size → s.basis_size ≠ 1 → t.basis_size ≠ 1 →
      State.add s t = Except.error Err.broadcastMismatch ∧
      State.sub s t = Except.error Err.broadcastMismatch) ∧
    (t.basis_size = 1 →
      (∃ a, State.add s t = Except.ok a ∧
        a.amplitudes = s.amplitudes.map (fun x => x + t.amplitudes.getD 0 0)) ∧
      (∃ a, State.sub s t = Except.ok a ∧
        a.amplitudes = s.amplitudes.map (fun x => x - t.amplitudes.getD 0 0))) ∧
    (s.basis_size = 1 → t.basis_size ≠ 1 →
      (∃ a, State.add s t = Except.ok a ∧
        a.amplitudes = t.amplitudes.map (fun x => s.amplitudes.getD 0 0 + x)) ∧
      (∃ a, State.sub s t = Except.ok a ∧
        a.amplitudes = t.amplitudes.map (fun x => s.amplitudes.getD 0 0 - x))) := by
  refine ⟨?_, ?_, ?_⟩
  · intro hne hs1 ht1
    unfold State.basis_size at hne hs1 ht1
    constructor
    · unfold State.add State.npBinOp
      rw [if_neg hne, if_neg hs1, if_neg ht1]
    · unfold State.sub State.npBinOp
      rw [if_neg hne, if_neg hs1, if_neg ht1]
  · intro ht1
    unfold State.basis_size at ht1
    by_cases hst : s.amplitudes.length = t.amplitudes.length
    · obtain ⟨y, hy⟩ := List.length_eq_one.mp ht1
      obtain ⟨x, hx⟩ := List.length_eq_one.mp (by rw [hst]; exact ht1)
      constructor
      · have hmap : s.amplitudes.map (fun v => v + t.amplitudes.getD 0 0)
            = List.zipWith (fun a b => a + b) s.amplitudes t.amplitudes := by
          rw [hx, hy]
          rfl
        have hzlen : (List.zipWith (fun a b => a + b)
            s.amplitudes t.amplitudes).length = s.amplitudes.length := by
          rw [List.length_zipWith]
          omega
        unfold State.add State.npBinOp
        rw [if_pos hst]
        obtain ⟨a, ha, hamp⟩ := init_eq_ok_of_length
          (List.zipWith (fun a b => a + b) s.amplitudes t.amplitudes)
          s.amplitudes.length s.pow2 hzlen
        exact ⟨a, ha, by rw [hamp, hmap]⟩
      · have hmap : s.amplitudes.map (fun v => v - t.amplitudes.getD 0 0)
            = List.zipWith (fun a b => a - b) s.amplitudes t.amplitudes := by
          rw [hx, hy]
          rfl
        have hzlen : (List.zipWith (fun a b => a - b)
            s.amplitudes t.amplitudes).length = s.amplitudes.length := by
          rw [List.length_zipWith]
          omega
        unfold State.sub State.npBinOp
        rw [if_pos hst]
        obtain ⟨a, ha, hamp⟩ := init_eq_ok_of_length
          (List.zipWith (fun a b => a - b) s.amplitudes t.amplitudes)
          s.amplitudes.length s.pow2 hzlen
        exact ⟨a, ha, by rw [hamp, hmap]⟩
    · constructor
      · unfold State.add State.npBinOp
        rw [if_neg hst, if_neg (by omega : ¬ s.amplitudes.length = 1),
          if_pos ht1]
        obtain ⟨a, ha, hamp⟩ := init_eq_ok_of_length
          (s.amplitudes.map (fun x => x + t.amplitudes.getD 0 0))
          s.amplitudes.length s.pow2 (List.length_map _ _)
        exact ⟨a, ha, by rw [hamp]⟩
      · unfold State.sub State.npBinOp
        rw [if_neg hst, if_neg (by omega : ¬ s.amplitudes.length = 1),
          if_pos ht1]
        obtain ⟨a, ha, hamp⟩ := init_eq_ok_of_length
          (s.amplitudes.map (fun x => x - t.amplitudes.getD 0 0))
          s.amplitudes.length s.pow2 (List.length_map _ _)
        exact ⟨a, ha, by rw [hamp]⟩
  · intro hs1 ht1
    unfold State.basis_size at hs1 ht1
    constructor
    · unfold State.add State.npBinOp
      rw [if_neg (by omega : ¬ s.amplitudes.length = t.amplitudes.length),
        if_pos hs1]
      obtain ⟨a, ha, hamp⟩ := init_eq_ok_of_length
        (t.amplitudes.map (fun x => s.amplitudes.getD 0 0 + x))
        t.amplitudes.length t.pow2 (List.length_map _ _)
      exact ⟨a, ha, by rw [hamp]⟩
    · unfold State.sub State.npBinOp
      rw [if_neg (by omega : ¬ s.amplitudes.length = t.amplitudes.length),
        if_pos hs1]
      obtain ⟨a, ha, hamp⟩ := init_eq_ok_of_length
        (t.amplitudes.map (fun x => s.amplitudes.getD 0 0 - x))
        t.amplitudes.length t.pow2 (List.length_map _ _)
      exact ⟨a, ha, by rw [hamp]⟩

/-- C4 witness: `State([1, 2, 3, 4])` against `State([5, 6])` fails both ways,
while against the singleton `State([5])` both addition and subtraction
broadcast and succeed. -/
theorem claim4_witness :
    (State.add state1234 state56 = Except.error Err.broadcastMismatch ∧
      State.sub state1234 state56 = Except.error Err.broadcastMismatch) ∧
    (∃ a, State.add state1234 state5 = Except.ok a ∧
      a.amplitudes = state1234.amplitudes.map
        (fun x => x + state5.amplitudes.getD 0 0)) ∧
    (∃ a, State.sub state1234 state5 = Except.ok a ∧
      a.amplitudes = state1234.amplitudes.map
        (fun x => x - state5.amplitudes.getD 0 0)) :=
  ⟨(claim4_add_sub_broadcast state1234 state56).1 (by decide) (by decide)
      (by decide),
   ((claim4_add_sub_broadcast state1234 state5).2.1 (by decide)).1,
   ((claim4_add_sub_broadcast state1234 state5).2.1 (by decide)).2⟩

/-- Real part of the self inner product of an amplitude list: the sum of the
squared magnitudes. -/
theorem zipWith_conj_sum_re (l : List QC) :
    ((List.zipWith (fun a b => QC.conj a * b) l l).sum).re
      = Finset.sum (Finset.range l.length) (fun i => QC.normSq (l.getD i 0)) := by
  induction l with
  | nil => simp
  | cons x t ih =>
    rw [List.zipWith_cons_cons, List.sum_cons, List.length_cons,
      Finset.sum_range_succ']
    simp only [List.getD_cons_succ, List.getD_cons_zero, QC.add_re]
    rw [ih]
    have hx : (QC.conj x * x).re = QC.normSq x := by
      simp only [QC.mul_re, QC.conj_re, QC.conj_im, QC.normSq]
      ring
    rw [hx]
    ring

/-- Real part of `self * self` as a sum of squared magnitudes over the basis
labels. -/
theorem mul_self_re (s : State) :
    (State.mul_state_state s s).re
      = Finset.sum (Finset.range s.basis_size)
          (fun i => QC.normSq (s.amplitudes.getD i 0)) :=
  zipWith_conj_sum_re s.amplitudes

/-- The radicand of the norm is nonnegative. -/
theorem mul_self_re_nonneg (s : State) : 0 ≤ (State.mul_state_state s s).re := by
  rw [mul_self_re]
  exact Finset.sum_nonneg (fun i _ => QC.normSq_nonneg _)

/-- Reading a natural-number index through the integer-index `__getitem__`. -/
theorem getitem_nat (s : State) (i : ℕ) : s.getitem i = s.amplitudes[i]? := by
  unfold State.getitem
  rw [if_pos (by exact_mod_cast Int.natCast_nonneg i)]
  rw [Int.toNat_natCast]

/-- Evaluation of `prob_of_bs` at an in-range natural-number label. -/
theorem prob_of_bs_eq (s : State) (i : ℕ) (h : i < s.basis_size) :
    State.prob_of_bs s i true = some (probTerm s i) ∧
    State.prob_of_bs s i false = some (QC.normSq (s.amplitudes.getD i 0)) := by
  unfold State.prob_of_bs
  rw [getitem_nat, List.getElem?_eq_getElem h]
  constructor
  · simp [probTerm, List.getElem?_eq_getElem h]
  · simp [List.getElem?_eq_getElem h]

/-- C6: for an in-range label `m`, the normalized `prob_of_bs` equals
`|s[m]|²` divided by `norm(s)²` (the squared square root of the radicand
`(self * self).real`), and the unnormalized variant returns the raw
`|s[m]|²`. -/
theorem claim6_prob_of_bs (s : State) (m : ℕ) (h : m < s.basis_size) :
    State.prob_of_bs s m true
        = some (QC.normSq (s.amplitudes.getD m 0)
            / (State.mul_state_state s s).re) ∧
    ((QC.normSq (s.amplitudes.getD m 0)
        / (State.mul_state_state s s).re : ℚ) : ℝ)
        = ((QC.normSq (s.amplitudes.getD m 0) : ℚ) : ℝ)
            / Real.sqrt (((State.mul_state_state s s).re : ℚ) : ℝ) ^ 2 ∧
    State.prob_of_bs s m false = some (QC.normSq (s.amplitudes.getD m 0)) := by
  refine ⟨(prob_of_bs_eq s m h).1, ?_, (prob_of_bs_eq s m h).2⟩
  rw [Real.sq_sqrt (by exact_mod_cast mul_self_re_nonneg s)]
  push_cast
  ring

/-- C6 witness: instantiation at the unnormalized `State([1, 0, 1, 0])`; the
normalized probability of basis state 0 is `1/2` and of basis state 1 is 0. -/
theorem claim6_witness :
    State.prob_of_bs state1010 0 true
        = some (QC.normSq (state1010.amplitudes.getD 0 0)
            / (State.mul_state_state state1010 state1010).re) ∧
    State.prob_of_bs state1010 0 true = some (1 / 2) ∧
    State.prob_of_bs state1010 1 true = some 0 :=
  ⟨(claim6_prob_of_bs state1010 0 (by decide)).1,
   by with_unfolding_all decide, by with_unfolding_all decide⟩

/-- One more step of the running probability sum. -/
theorem cumProb_succ (s : State) (n : ℕ) :
    cumProb s (n + 1) = cumProb s n + probTerm s n :=
  Finset.sum_range_succ _ _

/-- For a state with nonzero radicand the running sum over all basis labels
is exactly 1. -/
theorem cumProb_total (s : State) (hn : (State.mul_state_state s s).re ≠ 0) :
    cumProb s s.basis_size = 1 := by
  unfold cumProb probTerm
  rw [← Finset.sum_div, ← mul_self_re s]
  exact div_self hn

/-- Correctness of the measurement walk loop: started consistently, it stops
at the first label whose running probability sum reaches the sampled
threshold. -/
theorem measureLoop_correct (s : State) (u : ℚ) (h1 : u < 1)
    (hn : (State.mul_state_state s s).re ≠ 0) :
    ∀ fuel bs acc, acc = cumProb s (bs + 1) →
      (∀ j, j < bs → cumProb s (j + 1) < u) →
      bs < s.basis_size →
      s.basis_size ≤ bs + 1 + fuel →
      ∃ k, State.measureLoop s u fuel bs acc = some k ∧
        u ≤ cumProb s (k + 1) ∧ ∀ j, j < k → cumProb s (j + 1) < u := by
  intro fuel
  induction fuel with
  | zero =>
    intro bs acc hacc hprev hbs hfuel
    have hsize : s.basis_size = bs + 1 := by omega
    have hone : acc = 1 := by
      rw [hacc, ← hsize]
      exact cumProb_total s hn
    have hnotlt : ¬ acc < u := by
      rw [hone]
      exact not_lt.mpr (le_of_lt h1)
    refine ⟨bs, ?_, ?_, hprev⟩
    · unfold State.measureLoop
      rw [if_neg hnotlt]
    · rw [← hacc, hone]
      exact le_of_lt h1
  | succ fuel ih =>
    intro bs acc hacc hprev hbs hfuel
    by_cases hlt : acc < u
    · have hbs1 : bs + 1 < s.basis_size := by
        by_contra hge
        have hsize : s.basis_size = bs + 1 := by omega
        have hone : acc = 1 := by
          rw [hacc, ← hsize]
          exact cumProb_total s hn
        rw [hone] at hlt
        exact absurd hlt (not_lt.mpr (le_of_lt h1))
      have hp := (prob_of_bs_eq s (bs + 1) hbs1).1
      have step : State.measureLoop s u (fuel + 1) bs acc
          = State.measureLoop s u fuel (bs + 1) (acc + probTerm s (bs + 1)) := by
        simp only [State.measureLoop]
        rw [if_pos hlt, hp]
      rw [step]
      apply ih (bs + 1) (acc + probTerm s (bs + 1))
      · rw [cumProb_succ, hacc]
      · intro j hj
        rcases Nat.lt_succ_iff_lt_or_eq.mp hj with hj' | hj'
        · exact hprev j hj'
        · subst hj'
          rw [← hacc]
          exact hlt
      · exact hbs1
      · omega
    · refine ⟨bs, ?_, ?_, hprev⟩
      · unfold State.measureLoop
        rw [if_neg hlt]
      · rw [← hacc]
        exact not_lt.mp hlt

/-- The measurement walk on a state with nonzero radicand returns the least
basis-state label at which the running probability sum reaches the sampled
threshold. -/
theorem rmb_least (s : State) (u : ℚ) (h1 : u < 1)
    (hn : (State.mul_state_state s s).re ≠ 0) :
    ∃ k, State.random_measure_bs s u = some k ∧
      u ≤ cumProb s (k + 1) ∧ ∀ j, j < k → cumProb s (j + 1) < u := by
  have h0 : (0 : ℕ) < s.basis_size := basis_size_pos s
  have hp := (prob_of_bs_eq s 0 h0).1
  have hp' : State.prob_of_bs s 0 true = some (probTerm s 0) := by
    exact_mod_cast hp
  have hrw : State.random_measure_bs s u
      = State.measureLoop s u s.basis_size 0 (probTerm s 0) := by
    unfold State.random_measure_bs
    rw [hp']
  rw [hrw]
  apply measureLoop_correct s u h1 hn s.basis_size 0 (probTerm s 0)
  · rw [cumProb_succ]
    unfold cumProb
    rw [Finset.sum_range_zero, zero_add]
  · intro j hj
    omega
  · exact h0
  · omega

/-- C7: for every uniform draw `u` in `[0,1)` and every state with nonzero
norm radicand, `random_measure_bs` returns the smallest basis-state label at
which the running sum of normalized `prob_of_bs` values first reaches or
exceeds `u`; in particular, on `State([1, 1, 0, 0])` it never returns label 2
or label 3. -/
theorem claim7_measure_walk (s : State) (u : ℚ) (h0 : 0 ≤ u) (h1 : u < 1)
    (hn : (State.mul_state_state s s).re ≠ 0) :
    (∃ k, State.random_measure_bs s u = some k ∧
      u ≤ cumProb s (k + 1) ∧ ∀ j, j < k → cumProb s (j + 1) < u) ∧
    (∀ k, State.random_measure_bs state1100 u = some k → k ≤ 1) := by
  refine ⟨rmb_least s u h1 hn, ?_⟩
  intro k hk
  obtain ⟨k', hk', hge, hlt⟩ := rmb_least state1100 u h1
    (by with_unfolding_all decide)
  rw [hk'] at hk
  have hkk : k' = k := by
    injection hk
  subst hkk
  by_contra hgt
  have h2 : cumProb state1100 (1 + 1) < u := hlt 1 (by omega)
  have hc : cumProb state1100 2 = 1 := by with_unfolding_all decide
  rw [hc] at h2
  exact absurd h2 (not_lt.mpr (le_of_lt h1))

/-- C7 witness: instantiation at `State([1, 1, 0, 0])` with the draw
`u = 1/2`. -/
theorem claim7_witness :
    (∃ k, State.random_measure_bs state1100 (1 / 2) = some k ∧
      (1 / 2 : ℚ) ≤ cumProb state1100 (k + 1) ∧
      ∀ j, j < k → cumProb state1100 (j + 1) < (1 / 2 : ℚ)) ∧
    (∀ k, State.random_measure_bs state1100 (1 / 2) = some k → k ≤ 1) :=
  claim7_measure_walk state1100 (1 / 2) (by with_unfolding_all decide)
    (by with_unfolding_all decide) (by with_unfolding_all decide)
